import Mathlib

/-!
Verification of the synchronized-set reconciliation engine (the ElementSet
class) against its specification.

The embedding below translates the ElementSet source directly:
  * ids are naturals, groups are JavaScript values (undefined / null / string),
  * the JS Map backing the local index is an insertion-ordered association
    list whose keys are JS values (an id or an object reference, since
    Map.delete is called with an object in the remote-update handler),
  * asynchronous operations are modelled sequentially; a rejected promise or
    a synchronous throw is an Outcome.failed result,
  * the observable behaviour of a reconciliation step is a trace of actions
    (index mutations and event emissions) in execution order.
-/

namespace ElementSetModel

/-- JavaScript value used for the group field of an entry: the field can be
absent (undefined), explicitly null, or a string tag. -/
inductive GVal where
  | undef : GVal
  | null : GVal
  | str : String → GVal
deriving DecidableEq, Repr

/-- JavaScript truthiness of a group value: only a non-empty string is truthy. -/
def GVal.truthy : GVal → Bool
  | .str s => !(s == "")
  | _ => false

/-- JavaScript loose equality on group values: null and undefined are loosely
equal to each other, strings compare by content. -/
def GVal.looseEq : GVal → GVal → Bool
  | .str a, .str b => a == b
  | .str _, _ => false
  | _, .str _ => false
  | _, _ => true

/-- JavaScript test for loose equality against null, as in the source
expression group == null. -/
def GVal.looseNull : GVal → Bool
  | .str _ => false
  | _ => true

/-- An entry of the replicated entries list: an id plus a group tag; the group
field may be absent (GVal.undef). -/
structure Entry where
  id : Nat
  group : GVal
deriving DecidableEq, Repr

/-- A hydrated domain object: its own id and its liveness flag. -/
structure Elem where
  eid : Nat
  live : Bool
deriving DecidableEq, Repr

/-- A key of the JS Map backing the local index: either an id or an object
reference (the remote-update handler calls Map.delete with an element
object rather than an id). -/
inductive MKey where
  | id : Nat → MKey
  | obj : Elem → MKey
deriving DecidableEq, Repr

/-- The local index: a JS Map modelled as an insertion-ordered association
list with unique keys maintained by mapSet. -/
abbrev JsMap := List (MKey × Elem)

/-- Map.has: some pair with the given key is present. -/
def mapHas (m : JsMap) (k : MKey) : Bool :=
  m.any (fun p => p.1 == k)

/-- Map.get: the value of the first pair with the given key, if any. -/
def mapGet (m : JsMap) (k : MKey) : Option Elem :=
  (m.find? (fun p => p.1 == k)).map Prod.snd

/-- Map.set: replace the value in place if the key exists, otherwise append
(JS Map preserves insertion order). -/
def mapSet (m : JsMap) (k : MKey) (v : Elem) : JsMap :=
  if mapHas m k then m.map (fun p => if p.1 == k then (k, v) else p)
  else m ++ [(k, v)]

/-- Map.delete: remove the pair with the given key. -/
def mapDelete (m : JsMap) (k : MKey) : JsMap :=
  m.filter (fun p => !(p.1 == k))

/-- An ele argument of the public API: the source accepts either a bare id or
a domain object wherever an ele parameter is documented. -/
inductive EleRef where
  | id : Nat → EleRef
  | obj : Elem → EleRef
deriving DecidableEq, Repr

/-- Modelled from the spec: the getId helper of the util module (the module is
not under src); spec section 4.4 states that id resolution is uniform, a bare
id and a full object being accepted anywhere an ele parameter is documented. -/
def getId : EleRef → Nat
  | .id i => i
  | .obj e => e.eid

/-- An event published on the emitter: the event name plus the ele, group and
oldGroup arguments of emitter.emit (absent arguments are none / undef). -/
structure Event where
  evt : String
  ele : Option Elem
  group : GVal
  oldGroup : GVal
deriving DecidableEq, Repr

/-- Error kinds surfaced by the modelled operations. -/
inductive JsError where
  | invalidConfig : JsError
  | typeError : JsError
  | hydrationFailure : JsError
deriving DecidableEq, Repr

/-- Outcome of an operation: the returned promise resolves, or the operation
fails (a rejected promise or a synchronous throw). -/
inductive Outcome where
  | resolved : Outcome
  | failed : JsError → Outcome
deriving DecidableEq, Repr

/-- An observable action of an operation, in execution order: a mutation of
the local index (set or delete) or an event emission. -/
inductive Action where
  | set : MKey → Elem → Action
  | del : MKey → Action
  | emit : Event → Action
deriving DecidableEq, Repr

/-- Whether an action is an event emission. -/
def Action.isEmit : Action → Bool
  | .emit _ => true
  | _ => false

/-- Apply one action to the local index (emissions leave it unchanged). -/
def applyAction (m : JsMap) : Action → JsMap
  | .set k v => mapSet m k v
  | .del k => mapDelete m k
  | .emit _ => m

/-- Apply a trace of actions to the local index, in order. -/
def applyTrace (m : JsMap) (tr : List Action) : JsMap :=
  tr.foldl applyAction m

/-- The events emitted along a trace, in order. -/
def emitsOf (tr : List Action) : List Event :=
  tr.filterMap (fun a => match a with | .emit e => some e | _ => none)

/-- State of an ElementSet instance: the entries field of the syncher, the
elementsById map, and the live flag of the syncher. -/
structure ElementSet where
  entries : List Entry
  elementsById : JsMap
  live : Bool
deriving DecidableEq, Repr

/-- Result of constructing an ElementSet: the initial state and the fact that
the constructor subscribed its remoteupdate handler on the syncher. -/
structure ElementSetInit where
  set : ElementSet
  subscribedRemoteupdate : Bool
deriving DecidableEq, Repr

/-- The ElementSet constructor: throws unless the syncher defines the entries
field (the source checks !this.syncher.get('entries')); otherwise it creates
an empty elementsById map and subscribes to the remoteupdate feed. -/
def makeElementSet (entriesField : Option (List Entry)) (live : Bool) :
    Except JsError ElementSetInit :=
  match entriesField with
  | none => .error .invalidConfig
  | some entries => .ok ⟨⟨entries, [], live⟩, true⟩

/-- The maybeSynchElement method: if the syncher is live and the element is
not, activate the element's own synchronization. -/
def maybeSynchElement (live : Bool) (e : Elem) : Elem :=
  if live && !e.live then { eid := e.eid, live := true } else e

/-- The lodash differenceBy call with the entry-id iteratee: entries of the
first list whose id does not occur in the second, in order. -/
def differenceById (a b : List Entry) : List Entry :=
  a.filter (fun x => !(b.any (fun y => y.id == x.id)))

/-- Helper for intersectionById: drop every entry whose id was already seen. -/
def dedupeByIdAux : List Entry → List Nat → List Entry
  | [], _ => []
  | x :: xs, seen =>
      if seen.contains x.id then dedupeByIdAux xs seen
      else x :: dedupeByIdAux xs (x.id :: seen)

/-- The lodash intersectionBy call with the entry-id iteratee: entries of the
first list whose id occurs in the second, deduplicated by id, in order. -/
def intersectionById (a b : List Entry) : List Entry :=
  dedupeByIdAux (a.filter (fun x => b.any (fun y => y.id == x.id))) []

/-- An added or removed entry paired with its resolved domain object, as
produced by fillEntry and by the synchronous resolution of removals. -/
structure Filled where
  ele : Elem
  entry : Entry
deriving DecidableEq, Repr

/-- The fillEntries pipeline over the added entries: load each added entry's
object from the cache and run maybeSynchElement on it; if any load rejects
the whole pipeline rejects. -/
def fillAdded (cache : Nat → Option Elem) (live : Bool) :
    List Entry → Option (List Filled)
  | [] => some []
  | en :: rest =>
      match cache en.id with
      | none => none
      | some e =>
          match fillAdded cache live rest with
          | none => none
          | some fs => some (⟨maybeSynchElement live e, en⟩ :: fs)

/-- The remoteupdate handler on the entries field, as an action trace: diff
the two snapshots by id, resolve removals synchronously against the current
map, hydrate additions (rejecting the whole step if any load rejects), then
mutate the map (set for each addition, then Map.delete keyed by the element
object for each removal, exactly as the source passes f.ele to the delete
helper), and finally dequeue the accumulated emits: the add/remoteadd pair
per addition, the remove/remoteremove pairs, then the regroup/remoteregroup
pairs, whose element lookup reads the map after the mutations. -/
def ElementSet.remoteupdateTrace (cache : Nat → Option Elem) (live : Bool)
    (m : JsMap) (changes old : List Entry) : List Action × Outcome :=
  let addedEntries := differenceById changes old
  let removedEntries := differenceById old changes
  let sameEntries := intersectionById changes old
  let filledRemoved := removedEntries.filterMap
    (fun en => (mapGet m (MKey.id en.id)).map (fun e => (⟨e, en⟩ : Filled)))
  match fillAdded cache live addedEntries with
  | none => ([], .failed .hydrationFailure)
  | some filledAdded =>
      let mutActions :=
        filledAdded.map (fun f => Action.set (MKey.id f.ele.eid) f.ele)
          ++ filledRemoved.map (fun f => Action.del (MKey.obj f.ele))
      let m2 := applyTrace m mutActions
      let emits : List Event :=
        filledAdded.flatMap (fun f =>
          [⟨"add", some f.ele, f.entry.group, .undef⟩,
           ⟨"remoteadd", some f.ele, f.entry.group, .undef⟩])
        ++ filledRemoved.flatMap (fun f =>
          [⟨"remove", some f.ele, f.entry.group, .undef⟩,
           ⟨"remoteremove", some f.ele, f.entry.group, .undef⟩])
        ++ sameEntries.flatMap (fun ent =>
          match old.find? (fun e => e.id == ent.id),
                changes.find? (fun e => e.id == ent.id) with
          | some oldEnt, some newEnt =>
              if newEnt.group ≠ oldEnt.group then
                [⟨"regroup", mapGet m2 (MKey.id ent.id), newEnt.group, oldEnt.group⟩,
                 ⟨"remoteregroup", mapGet m2 (MKey.id ent.id), newEnt.group, oldEnt.group⟩]
              else []
          | _, _ => [])
      (mutActions ++ emits.map Action.emit, .resolved)

/-- One remote diff event on the entries field: the syncher state now holds
the new entries, the handler's trace is applied to the local index, and the
handler's emits are the published events. -/
def ElementSet.remoteupdate (st : ElementSet) (cache : Nat → Option Elem)
    (changes old : List Entry) : ElementSet × List Event × Outcome :=
  let tr := ElementSet.remoteupdateTrace cache st.live st.elementsById changes old
  (⟨changes, applyTrace st.elementsById tr.1, st.live⟩, emitsOf tr.1, tr.2)

/-- The loadElements method, as an action trace: for every entry of the
entries field, load its object from the cache, insert it under the element's
own id and run maybeSynchElement on it; if every load resolves, emit the
single loadelements event after all insertions, otherwise the call rejects
(the insertions of the loads that resolved still happened). -/
def ElementSet.loadElementsTrace (cache : Nat → Option Elem)
    (st : ElementSet) : List Action × Outcome :=
  let sets := st.entries.filterMap (fun en =>
    (cache en.id).map (fun e =>
      Action.set (MKey.id e.eid) (maybeSynchElement st.live e)))
  if st.entries.all (fun en => (cache en.id).isSome) then
    (sets ++ [Action.emit ⟨"loadelements", none, GVal.undef, GVal.undef⟩],
      Outcome.resolved)
  else (sets, Outcome.failed JsError.hydrationFailure)

/-- The loadElements method: the trace applied to the state plus the emitted
events and the outcome. -/
def ElementSet.loadElements (st : ElementSet) (cache : Nat → Option Elem) :
    ElementSet × List Event × Outcome :=
  let tr := ElementSet.loadElementsTrace cache st
  (⟨st.entries, applyTrace st.elementsById tr.1, st.live⟩, emitsOf tr.1, tr.2)

/-- The has method: a pure read of the elementsById map under the resolved id. -/
def ElementSet.has (st : ElementSet) (ele : EleRef) : Bool :=
  mapHas st.elementsById (MKey.id (getId ele))

/-- The get method: a pure read of the elementsById map under the resolved id. -/
def ElementSet.get (st : ElementSet) (ele : EleRef) : Option Elem :=
  mapGet st.elementsById (MKey.id (getId ele))

/-- The size method: the size of the elementsById map. -/
def ElementSet.size (st : ElementSet) : Nat :=
  st.elementsById.length

/-- The add method: a no-op if the id is already present; otherwise insert
into the map, push an entry to the syncher (the group field is stored only
when truthy), and unless silent emit add then localadd with the raw group
argument. The push is modelled from the spec of the external store: push
appends the record to the replicated entries field. -/
def ElementSet.add (st : ElementSet) (ele : Elem) (silent : Bool)
    (group : GVal) : ElementSet × List Event × Outcome :=
  if st.has (EleRef.obj ele) then (st, [], .resolved)
  else
    let id := ele.eid
    let m := mapSet st.elementsById (MKey.id id) ele
    let entry : Entry := ⟨id, if group.truthy then group else .undef⟩
    let events := if silent then [] else
      [⟨"add", some ele, group, .undef⟩, ⟨"localadd", some ele, group, .undef⟩]
    (⟨st.entries ++ [entry], m, st.live⟩, events, .resolved)

/-- The remove method: a no-op if the id is absent from the map; otherwise
resolve the element object (reading the map when a bare id was passed),
delete the id from the map, then read the entry's group from the entries
field — if the entry is gone this read throws (reading group of undefined)
with the map deletion already applied — and otherwise pull the entry from
the syncher by id and, unless silent, emit remove then localremove. The
pullById is modelled from the spec of the external store: it removes the
record with that id from the replicated entries field. -/
def ElementSet.remove (st : ElementSet) (ele : EleRef) (silent : Bool) :
    ElementSet × List Event × Outcome :=
  if !(st.has ele) then (st, [], .resolved)
  else
    let id := getId ele
    let emitEle : Option Elem :=
      match ele with
      | .id _ => st.get ele
      | .obj e => some e
    let m := mapDelete st.elementsById (MKey.id id)
    match st.entries.find? (fun en => en.id == id) with
    | none => (⟨st.entries, m, st.live⟩, [], .failed .typeError)
    | some entry =>
        let events := if silent then [] else
          [⟨"remove", emitEle, entry.group, .undef⟩,
           ⟨"localremove", emitEle, entry.group, .undef⟩]
        (⟨st.entries.filter (fun en => !(en.id == id)), m, st.live⟩,
          events, .resolved)

/-- The elements method: filter the entries field by the group argument
(every entry matches when the argument is loosely null, otherwise the
entry's group must be loosely equal to the argument), map each matching
entry to its object in the map, and keep the non-nil results in order. -/
def ElementSet.elements (st : ElementSet) (group : GVal) : List Elem :=
  (((st.entries.filter
        (fun en => group.looseNull || GVal.looseEq en.group group)).map
      (fun en => st.get (EleRef.id en.id))).filterMap id)

/-- The group method: undefined if the id is absent from the map; otherwise
the group of the first entry with that id — reading it throws when no such
entry exists. -/
def ElementSet.group (st : ElementSet) (ele : EleRef) : Except JsError GVal :=
  if !(st.has ele) then .ok .undef
  else
    match (st.entries.filter (fun ent => ent.id == getId ele)).head? with
    | none => .error .typeError
    | some ent => .ok ent.group

/-- The regroup method: a no-op if the id is absent from the map; otherwise
read the old group via the group method (which can throw before any
mutation), normalize an undefined group argument to null, merge the patched
record into the syncher by id, and unless silent emit regroup then
localregroup with the normalized new group and the old group. The mergeById
is modelled from the spec of the external store: it patches the record with
that id in place. -/
def ElementSet.regroup (st : ElementSet) (ele : EleRef) (silent : Bool)
    (groupArg : GVal) : ElementSet × List Event × Outcome :=
  if !(st.has ele) then (st, [], .resolved)
  else
    match st.group ele with
    | .error e => (st, [], .failed e)
    | .ok oldGroup =>
        let id := getId ele
        let emitEle : Option Elem :=
          match ele with
          | .id _ => st.get ele
          | .obj e => some e
        let group := if groupArg = GVal.undef then GVal.null else groupArg
        let entries := st.entries.map
          (fun en => if en.id == id then ⟨en.id, group⟩ else en)
        let events := if silent then [] else
          [⟨"regroup", emitEle, group, oldGroup⟩,
           ⟨"localregroup", emitEle, group, oldGroup⟩]
        (⟨entries, st.elementsById, st.live⟩, events, .resolved)

/-- One add/remoteadd event pair for a resolved addition, as the claimed
publish order describes it. -/
def addEventPair (f : Filled) : List Event :=
  [⟨"add", some f.ele, f.entry.group, .undef⟩,
   ⟨"remoteadd", some f.ele, f.entry.group, .undef⟩]

/-- One remove/remoteremove event pair for a resolved removal, as the claimed
publish order describes it. -/
def removeEventPair (f : Filled) : List Event :=
  [⟨"remove", some f.ele, f.entry.group, .undef⟩,
   ⟨"remoteremove", some f.ele, f.entry.group, .undef⟩]

/-- The synchronously resolved removals of a diff: each removed entry paired
with its object in the local index, entries absent from the index dropped. -/
def filledRemovedOf (m : JsMap) (changes old : List Entry) : List Filled :=
  (differenceById old changes).filterMap
    (fun en => (mapGet m (MKey.id en.id)).map (fun e => (⟨e, en⟩ : Filled)))

/-- The regroup/remoteregroup event pairs of a diff, one pair per same-id
entry whose group changed, reading the element from the given map. -/
def regroupPairsOf (m2 : JsMap) (changes old : List Entry) : List Event :=
  (intersectionById changes old).flatMap (fun ent =>
    match old.find? (fun e => e.id == ent.id),
          changes.find? (fun e => e.id == ent.id) with
    | some oldEnt, some newEnt =>
        if newEnt.group ≠ oldEnt.group then
          [⟨"regroup", mapGet m2 (MKey.id ent.id), newEnt.group, oldEnt.group⟩,
           ⟨"remoteregroup", mapGet m2 (MKey.id ent.id), newEnt.group,
             oldEnt.group⟩]
        else []
    | _, _ => [])

/-- The local-index mutations of a diff: the insertion of every resolved
addition followed by the deletion issued for every resolved removal. -/
def indexMutationsOf (m : JsMap) (changes old : List Entry)
    (filledAdded : List Filled) : List Action :=
  filledAdded.map (fun f => Action.set (MKey.id f.ele.eid) f.ele)
    ++ (filledRemovedOf m changes old).map (fun f => Action.del (MKey.obj f.ele))

/-- Concrete fixture: a domain object with id 1. -/
def eleOne : Elem := ⟨1, false⟩

/-- Concrete fixture: a set whose sole member has id 1 and an entry without a
group field. -/
def stMember : ElementSet := ⟨[⟨1, .undef⟩], [(MKey.id 1, eleOne)], false⟩

/-- Concrete fixture: a set whose local index holds id 1 while the entries
field holds no entry for it. -/
def stOrphan : ElementSet := ⟨[], [(MKey.id 1, eleOne)], false⟩

/-- Concrete fixture: a freshly constructed empty set. -/
def stEmpty : ElementSet := ⟨[], [], false⟩

/-- Concrete fixture: a cache whose every load rejects. -/
def cacheNone : Nat → Option Elem := fun _ => none

/-- Concrete fixture: an entry with id 5 and no group. -/
def entryFive : Entry := ⟨5, .undef⟩

/-- Concrete fixture: the added object of the order-invariant example. -/
def objA : Elem := ⟨100, false⟩

/-- Concrete fixture: the removed object of the order-invariant example. -/
def objB : Elem := ⟨200, false⟩

/-- Concrete fixture: the added entry of the order-invariant example. -/
def entryA : Entry := ⟨100, .undef⟩

/-- Concrete fixture: the removed entry of the order-invariant example. -/
def entryB : Entry := ⟨200, .undef⟩

/-- Concrete fixture: a cache hydrating only the added id of the
order-invariant example. -/
def cacheAB : Nat → Option Elem := fun i => if i == 100 then some objA else none

/-- Concrete fixture: the pre-diff local index of the order-invariant
example, holding the object about to be removed. -/
def mAB : JsMap := [(MKey.id 200, objB)]

/-- Concrete fixture: the hydrated object for entry id 1 of the filtered-view
example. -/
def objOne : Elem := ⟨1, false⟩

/-- Concrete fixture: the hydrated object for entry id 2 of the filtered-view
example. -/
def objTwo : Elem := ⟨2, false⟩

/-- Concrete fixture: the two-entry, fully hydrated set of the filtered-view
example. -/
def stFiltered : ElementSet :=
  ⟨[⟨1, .str "a"⟩, ⟨2, .str "b"⟩],
   [(MKey.id 1, objOne), (MKey.id 2, objTwo)], false⟩

/-! Helper lemmas shared by the claim theorems. -/

theorem filter_map_filterMap {α β : Type} (p : α → Bool) (f : α → Option β)
    (l : List α) :
    ((l.filter p).map f).filterMap id =
      l.filterMap (fun a => if p a then f a else none) := by
  induction l with
  | nil => rfl
  | cons a l ih =>
      by_cases h : p a = true
      · rw [List.filter_cons_of_pos h, List.map_cons, List.filterMap_cons,
          List.filterMap_cons, if_pos h]
        cases f a <;> simp [ih]
      · rw [List.filter_cons_of_neg (by simpa using h), List.filterMap_cons,
          if_neg h]
        exact ih

theorem elements_eq_filterMap (st : ElementSet) (g : GVal) :
    st.elements g = st.entries.filterMap (fun en =>
      if g.looseNull || GVal.looseEq en.group g then st.get (EleRef.id en.id)
      else none) := by
  unfold ElementSet.elements
  rw [filter_map_filterMap]

theorem head_filter_any {α : Type} (p : α → Bool) (l : List α)
    (h : l.any p = true) :
    ∃ a, (l.filter p).head? = some a ∧ p a = true := by
  cases hf : l.filter p with
  | nil =>
      rcases List.any_eq_true.mp h with ⟨a, ha, hpa⟩
      have : a ∈ l.filter p := List.mem_filter.mpr ⟨ha, hpa⟩
      rw [hf] at this
      exact absurd this (List.not_mem_nil a)
  | cons a rest =>
      refine ⟨a, rfl, ?_⟩
      have : a ∈ l.filter p := by
        rw [hf]; exact List.mem_cons_self a rest
      exact (List.mem_filter.mp this).2

/-- C7: construction of the Synchronized Set fails immediately with a
synchronously thrown InvalidConfiguration error, with no partial
construction, whenever the Replicated State Store handle does not already
declare the entries field; otherwise construction succeeds (with an empty
local index) and subscribes to the store's remote-diff feed. -/
theorem C7_construction :
    (∀ live : Bool,
        makeElementSet none live = Except.error JsError.invalidConfig) ∧
    (∀ (l : List Entry) (live : Bool),
        makeElementSet (some l) live =
          Except.ok ⟨⟨l, [], live⟩, true⟩) :=
  ⟨fun _ => rfl, fun _ _ => rfl⟩

/-- C6: elements returns, in Entry Sequence order, the hydrated objects of
exactly the entries whose group matches the filter (every entry when the
filter is loosely null, that is when no filter is given), silently skipping
entries absent from the Local Index; on the two-entry hydrated example,
elements "a" returns exactly the object for id 1 and elements with no
argument returns both in entry order. -/
theorem C6_elements_view :
    (∀ (st : ElementSet) (g : GVal),
        st.elements g = st.entries.filterMap (fun en =>
          if g.looseNull || GVal.looseEq en.group g then
            st.get (EleRef.id en.id)
          else none)) ∧
    stFiltered.elements (GVal.str "a") = [objOne] ∧
    stFiltered.elements GVal.undef = [objOne, objTwo] :=
  ⟨fun st g => elements_eq_filterMap st g, by decide, by decide⟩

/-- C9: calling elements with an explicit null argument returns exactly the
same list as calling it with the argument left undefined, namely every
hydrated entry in Entry Sequence order, rather than selecting only the
entries whose stored group is null. -/
theorem C9_elements_null_filter (st : ElementSet) :
    st.elements GVal.null = st.elements GVal.undef ∧
    st.elements GVal.undef =
      st.entries.filterMap (fun en => st.get (EleRef.id en.id)) := by
  rw [elements_eq_filterMap, elements_eq_filterMap]
  constructor
  · rfl
  · simp [GVal.looseNull]

theorem mapHas_mapSet_self (m : JsMap) (k : MKey) (v : Elem) :
    mapHas (mapSet m k v) k = true := by
  by_cases h : mapHas m k = true
  · unfold mapSet
    rw [if_pos h]
    unfold mapHas at h ⊢
    rcases List.any_eq_true.mp h with ⟨p, hp, hpk⟩
    refine List.any_eq_true.mpr ⟨(k, v), ?_, by simp⟩
    refine List.mem_map.mpr ⟨p, hp, ?_⟩
    have hpk2 : (p.1 == k) = true := hpk
    simp [hpk2]
  · unfold mapSet
    rw [if_neg h]
    unfold mapHas
    simp [List.any_append]

theorem length_mapSet_of_not_has (m : JsMap) (k : MKey) (v : Elem)
    (h : mapHas m k = false) : (mapSet m k v).length = m.length + 1 := by
  unfold mapSet
  rw [if_neg (by simp [h])]
  simp

/-- C3 counterexample: starting from a state whose Local Index already holds
the id of x, add(x) followed immediately by add(x) leaves the Local Index
size unchanged, so the size has not increased by exactly 1. -/
theorem C3_counterexample :
    ¬ ((((stMember.add eleOne false GVal.undef).1.add eleOne false
          GVal.undef).1.size) = stMember.size + 1) := by decide

/-- C3 (amended): calling add(x) when an entry with x's id already exists is
a no-op that succeeds immediately, publishes no events and does not mutate
the index; hence, provided x's id is not already present, after add(x)
followed immediately by add(x) again the Local Index size has increased by
exactly 1 and the second call resolved without publishing any event or
mutating the index. -/
theorem C3_add_set_semantics (st : ElementSet) (x : Elem) (s1 s2 : Bool)
    (g1 g2 : GVal) (h : st.has (EleRef.obj x) = false) :
    (∀ (st2 : ElementSet) (s : Bool) (g : GVal),
        st2.has (EleRef.obj x) = true →
        st2.add x s g = (st2, [], Outcome.resolved)) ∧
    (st.add x s1 g1).1.add x s2 g2 =
        ((st.add x s1 g1).1, [], Outcome.resolved) ∧
    ((st.add x s1 g1).1.add x s2 g2).1.size = st.size + 1 := by
  have noop : ∀ (st2 : ElementSet) (s : Bool) (g : GVal),
      st2.has (EleRef.obj x) = true →
      st2.add x s g = (st2, [], Outcome.resolved) := by
    intro st2 s g hh
    unfold ElementSet.add
    rw [if_pos hh]
  have hfirst : (st.add x s1 g1).1.elementsById =
      mapSet st.elementsById (MKey.id x.eid) x := by
    unfold ElementSet.add
    rw [if_neg (by simp [h])]
  have hhas1 : (st.add x s1 g1).1.has (EleRef.obj x) = true := by
    unfold ElementSet.has
    rw [hfirst]
    exact mapHas_mapSet_self _ _ _
  have hsecond := noop _ s2 g2 hhas1
  refine ⟨noop, hsecond, ?_⟩
  rw [hsecond]
  show ((st.add x s1 g1).1.elementsById).length = st.size + 1
  rw [hfirst]
  exact length_mapSet_of_not_has _ _ _ h

/-- C3 witness: from the empty set, add(x) twice increases the size by
exactly 1 and the second call is a no-op that resolves with no events. -/
theorem C3_add_set_semantics_witness :
    (stEmpty.add eleOne false GVal.undef).1.add eleOne false GVal.undef =
        ((stEmpty.add eleOne false GVal.undef).1, [], Outcome.resolved) ∧
    ((stEmpty.add eleOne false GVal.undef).1.add eleOne false
        GVal.undef).1.size = stEmpty.size + 1 :=
  ⟨(C3_add_set_semantics stEmpty eleOne false false GVal.undef GVal.undef
      (by decide)).2.1,
   (C3_add_set_semantics stEmpty eleOne false false GVal.undef GVal.undef
      (by decide)).2.2⟩

/-- C4 counterexample: removing an id that is in the Local Index but has no
entry in the Entry Sequence fails, yet at the point of failure the id has
already been deleted from the Local Index — so the required-to-exist group
lookup did not occur before the deletion. -/
theorem C4_counterexample :
    (stOrphan.remove (EleRef.id 1) false).2.2 =
        Outcome.failed JsError.typeError ∧
    (stOrphan.remove (EleRef.id 1) false).1.elementsById = [] ∧
    ¬ ((stOrphan.remove (EleRef.id 1) false).1.elementsById =
        stOrphan.elementsById) := by decide

/-- C4 (amended): if remove is called for an id present in the Local Index
but with no entry in the Entry Sequence, the operation fails fatally as an
invariant violation with no events published, but the deletion from the
Local Index occurs before the required-to-exist group lookup, so the id has
already been removed from the Local Index when the failure surfaces to the
immediate caller. -/
theorem C4_remove_invariant_violation (st : ElementSet) (ele : EleRef)
    (silent : Bool) (hhas : st.has ele = true)
    (hent : st.entries.find? (fun en => en.id == getId ele) = none) :
    st.remove ele silent =
      (⟨st.entries, mapDelete st.elementsById (MKey.id (getId ele)), st.live⟩,
        [], Outcome.failed JsError.typeError) := by
  unfold ElementSet.remove
  rw [if_neg (by simp [hhas])]
  simp only [hent]

/-- C4 witness: the orphaned-id state exhibits the amended behaviour. -/
theorem C4_remove_invariant_violation_witness :
    stOrphan.has (EleRef.id 1) = true ∧
    stOrphan.remove (EleRef.id 1) false =
      (⟨stOrphan.entries, mapDelete stOrphan.elementsById (MKey.id 1),
          stOrphan.live⟩, [], Outcome.failed JsError.typeError) :=
  ⟨by decide,
   C4_remove_invariant_violation stOrphan (EleRef.id 1) false (by decide)
     (by decide)⟩

/-- C10 counterexample: a member whose entry carries no group field also
makes group return the undefined sentinel, so undefined is not returned
exactly when the id is absent from the Local Index. -/
theorem C10_counterexample :
    ¬ ((stMember.group (EleRef.id 1) = Except.ok GVal.undef) ↔
        (stMember.has (EleRef.id 1) = false)) := by
  intro hiff
  have hfalse := hiff.mp rfl
  have htrue : stMember.has (EleRef.id 1) = true := by decide
  exact Bool.noConfusion (htrue.symm.trans hfalse)

/-- C10 (amended): group(x) returns the undefined sentinel whenever x's id is
absent from the Local Index — membership is decided by the Local Index alone,
the Entry Sequence plays no part in it — and may also return undefined for a
member whose first entry has no group field; when the id is present, group
reads the first Entry Sequence entry with that id and throws if there is
none, so the operation is total (never fails) under the precondition that
every id in the Local Index has an entry in the Entry Sequence. -/
theorem C10_group_membership (st : ElementSet) (x : EleRef) :
    (∀ entries2 : List Entry,
        (⟨entries2, st.elementsById, st.live⟩ : ElementSet).has x = st.has x) ∧
    (st.has x = false → st.group x = Except.ok GVal.undef) ∧
    (st.has x = true →
        st.entries.any (fun en => en.id == getId x) = false →
        st.group x = Except.error JsError.typeError) ∧
    (st.has x = true →
        ∀ ent, (st.entries.filter (fun en => en.id == getId x)).head? =
            some ent →
        st.group x = Except.ok ent.group) ∧
    ((∀ i : Nat, mapHas st.elementsById (MKey.id i) = true →
        st.entries.any (fun en => en.id == i) = true) →
      ∃ g, st.group x = Except.ok g) := by
  refine ⟨fun _ => rfl, ?_, ?_, ?_, ?_⟩
  · intro hno
    unfold ElementSet.group
    rw [if_pos (by simp [hno])]
  · intro hyes hnone
    have hnil : st.entries.filter (fun en => en.id == getId x) = [] := by
      rw [List.filter_eq_nil_iff]
      intro a ha
      have := List.any_eq_false.mp hnone a ha
      simpa using this
    unfold ElementSet.group
    rw [if_neg (by simp [hyes]), hnil]
    rfl
  · intro hyes ent hent
    unfold ElementSet.group
    rw [if_neg (by simp [hyes]), hent]
  · intro hinv
    by_cases hyes : st.has x = true
    · have hany := hinv (getId x) hyes
      rcases head_filter_any _ _ hany with ⟨ent, hent, _⟩
      refine ⟨ent.group, ?_⟩
      unfold ElementSet.group
      rw [if_neg (by simp [hyes]), hent]
    · have hno : st.has x = false := by
        cases hb : st.has x
        · rfl
        · exact absurd hb hyes
      refine ⟨GVal.undef, ?_⟩
      unfold ElementSet.group
      rw [if_pos (by simp [hno])]

/-- C10 witness: concrete instances of the amended behaviour — a non-member
yields the undefined sentinel, and an id in the Local Index without an entry
makes the group lookup throw. -/
theorem C10_group_membership_witness :
    stMember.group (EleRef.id 2) = Except.ok GVal.undef ∧
    stOrphan.group (EleRef.id 1) = Except.error JsError.typeError :=
  ⟨(C10_group_membership stMember (EleRef.id 2)).2.1 (by decide),
   (C10_group_membership stOrphan (EleRef.id 1)).2.2.1 (by decide)
     (by decide)⟩

theorem head_filter_patched (l : List Entry) (i : Nat) (g : GVal)
    (h : l.any (fun en => en.id == i) = true) :
    ∃ ent, ((l.map (fun en =>
        if en.id == i then (⟨en.id, g⟩ : Entry) else en)).filter
          (fun en => en.id == i)).head? = some ent ∧ ent.group = g := by
  rcases head_filter_any (fun en => en.id == i) l h with ⟨ent0, hh, hp⟩
  have hp2 : (ent0.id == i) = true := hp
  refine ⟨⟨ent0.id, g⟩, ?_, rfl⟩
  rw [List.filter_map]
  have hcong : l.filter ((fun en => en.id == i) ∘ (fun en =>
      if en.id == i then (⟨en.id, g⟩ : Entry) else en)) =
        l.filter (fun en => en.id == i) := by
    apply List.filter_congr
    intro en _
    by_cases he : (en.id == i) = true
    · simp [Function.comp, he]
    · simp [Function.comp, he]
  rw [hcong, List.head?_map, hh]
  show some (if ent0.id == i then (⟨ent0.id, g⟩ : Entry) else ent0) =
    some (⟨ent0.id, g⟩ : Entry)
  rw [if_pos hp2]

theorem group_of_has_head (st : ElementSet) (x : EleRef) (ent : Entry)
    (hhas : st.has x = true)
    (hh : (st.entries.filter (fun en => en.id == getId x)).head? = some ent) :
    st.group x = Except.ok ent.group := by
  unfold ElementSet.group
  rw [if_neg (by simp [hhas]), hh]

theorem regroup_then_group (st : ElementSet) (x : EleRef) (garg : GVal)
    (hhas : st.has x = true)
    (hent : st.entries.any (fun en => en.id == getId x) = true) :
    (st.regroup x false garg).1.group x =
      Except.ok (if garg = GVal.undef then GVal.null else garg) := by
  rcases head_filter_any (fun en => en.id == getId x) st.entries hent with
    ⟨ent0, hh, _⟩
  have hgroup := group_of_has_head st x ent0 hhas hh
  have hres : (st.regroup x false garg).1 =
      ⟨st.entries.map (fun en => if en.id == getId x then
          (⟨en.id, if garg = GVal.undef then GVal.null else garg⟩ : Entry)
        else en), st.elementsById, st.live⟩ := by
    unfold ElementSet.regroup
    rw [if_neg (by simp [hhas]), hgroup]
  rw [hres]
  have hhas2 : (⟨st.entries.map (fun en => if en.id == getId x then
      (⟨en.id, if garg = GVal.undef then GVal.null else garg⟩ : Entry)
    else en), st.elementsById, st.live⟩ : ElementSet).has x = true := hhas
  rcases head_filter_patched st.entries (getId x)
    (if garg = GVal.undef then GVal.null else garg) hent with ⟨ent, hh2, hg⟩
  rw [group_of_has_head _ x ent hhas2 hh2, hg]

/-- C5: for every member x, regroup with a string group followed by group
returns that string, and regroup with an undefined group followed by group
returns null, never undefined — regroup normalizes an unset group argument
to an explicit null before persisting it. -/
theorem C5_group_round_trip (st : ElementSet) (x : EleRef) (s : String)
    (hhas : st.has x = true)
    (hent : st.entries.any (fun en => en.id == getId x) = true) :
    (st.regroup x false (GVal.str s)).1.group x = Except.ok (GVal.str s) ∧
    (st.regroup x false GVal.undef).1.group x = Except.ok GVal.null := by
  constructor
  · have h := regroup_then_group st x (GVal.str s) hhas hent
    simpa using h
  · have h := regroup_then_group st x GVal.undef hhas hent
    simpa using h

/-- C5 witness: the round trip on the concrete one-member set. -/
theorem C5_group_round_trip_witness :
    (stMember.regroup (EleRef.id 1) false (GVal.str "g")).1.group
        (EleRef.id 1) = Except.ok (GVal.str "g") ∧
    (stMember.regroup (EleRef.id 1) false GVal.undef).1.group
        (EleRef.id 1) = Except.ok GVal.null :=
  C5_group_round_trip stMember (EleRef.id 1) "g" (by decide) (by decide)

theorem fillAdded_eq_none {cache : Nat → Option Elem} {live : Bool}
    {l : List Entry} (h : ∃ en ∈ l, cache en.id = none) :
    fillAdded cache live l = none := by
  induction l with
  | nil => simp at h
  | cons a l ih =>
      rcases h with ⟨en, hmem, hnone⟩
      rcases List.mem_cons.mp hmem with heq | hmem2
      · unfold fillAdded
        rw [heq] at hnone
        rw [hnone]
      · unfold fillAdded
        cases hc : cache a.id with
        | none => rfl
        | some e => rw [ih ⟨en, hmem2, hnone⟩]

/-- C1: for every remote diff on the entries field, if the Object Cache load
for any added entry rejects, the reconciliation step fails with no mutation
of the Local Index at all — no insertions and no deletions, including for
the removed entries of that diff — and no events are published for that
diff. -/
theorem C1_hydration_failure_atomic (cache : Nat → Option Elem)
    (st : ElementSet) (changes old : List Entry)
    (h : ∃ en ∈ differenceById changes old, cache en.id = none) :
    (st.remoteupdate cache changes old).1.elementsById = st.elementsById ∧
    (st.remoteupdate cache changes old).2.1 = [] ∧
    (st.remoteupdate cache changes old).2.2 =
      Outcome.failed JsError.hydrationFailure := by
  have htr : ElementSet.remoteupdateTrace cache st.live st.elementsById
      changes old = ([], Outcome.failed JsError.hydrationFailure) := by
    simp only [ElementSet.remoteupdateTrace, fillAdded_eq_none h]
  unfold ElementSet.remoteupdate
  rw [htr]
  exact ⟨rfl, rfl, rfl⟩

/-- C1 witness: a diff adding one entry against an always-rejecting cache. -/
theorem C1_hydration_failure_atomic_witness :
    (stEmpty.remoteupdate cacheNone [entryFive] []).1.elementsById =
        stEmpty.elementsById ∧
    (stEmpty.remoteupdate cacheNone [entryFive] []).2.1 = [] ∧
    (stEmpty.remoteupdate cacheNone [entryFive] []).2.2 =
        Outcome.failed JsError.hydrationFailure :=
  C1_hydration_failure_atomic cacheNone stEmpty [entryFive] [] (by decide)

theorem emitsOf_eq_nil {tr : List Action} (h : ∀ a ∈ tr, a.isEmit = false) :
    emitsOf tr = [] := by
  induction tr with
  | nil => rfl
  | cons a tr ih =>
      have htail : ∀ b ∈ tr, b.isEmit = false := fun b hb =>
        h b (List.mem_cons_of_mem a hb)
      cases a with
      | set k v => simpa [emitsOf, List.filterMap_cons] using ih htail
      | del k => simpa [emitsOf, List.filterMap_cons] using ih htail
      | emit e =>
          exact absurd (h _ (List.mem_cons_self _ _)) (by simp [Action.isEmit])

/-- C8: when every load resolves, loadElements publishes exactly one
loadelements event, as the last action of the trace, only after the
insertion of every entry's loaded element; no per-entry events are
published during bulk hydration, and with an empty Entry Sequence the call
resolves having published exactly one loadelements event with Local Index
size 0. -/
theorem C8_loadElements (cache : Nat → Option Elem) (st : ElementSet)
    (h : ∀ en ∈ st.entries, (cache en.id).isSome = true) :
    (ElementSet.loadElementsTrace cache st).1 =
        (st.entries.filterMap (fun en => (cache en.id).map (fun e =>
            Action.set (MKey.id e.eid) (maybeSynchElement st.live e))))
          ++ [Action.emit ⟨"loadelements", none, GVal.undef, GVal.undef⟩] ∧
    (∀ a ∈ st.entries.filterMap (fun en => (cache en.id).map (fun e =>
        Action.set (MKey.id e.eid) (maybeSynchElement st.live e))),
      a.isEmit = false) ∧
    (st.loadElements cache).2.1 =
        [⟨"loadelements", none, GVal.undef, GVal.undef⟩] ∧
    (st.loadElements cache).2.2 = Outcome.resolved ∧
    (∀ en ∈ st.entries, ∀ e, cache en.id = some e →
        Action.set (MKey.id e.eid) (maybeSynchElement st.live e) ∈
          (ElementSet.loadElementsTrace cache st).1) ∧
    (st.entries = [] → st.elementsById = [] →
        (st.loadElements cache).1.size = 0) := by
  have hall : st.entries.all (fun en => (cache en.id).isSome) = true :=
    List.all_eq_true.mpr h
  have htr : ElementSet.loadElementsTrace cache st =
      ((st.entries.filterMap (fun en => (cache en.id).map (fun e =>
          Action.set (MKey.id e.eid) (maybeSynchElement st.live e))))
        ++ [Action.emit ⟨"loadelements", none, GVal.undef, GVal.undef⟩],
        Outcome.resolved) := by
    simp only [ElementSet.loadElementsTrace]
    rw [if_pos hall]
  have hmut : ∀ a ∈ st.entries.filterMap (fun en => (cache en.id).map (fun e =>
      Action.set (MKey.id e.eid) (maybeSynchElement st.live e))),
      a.isEmit = false := by
    intro a ha
    rcases List.mem_filterMap.mp ha with ⟨en, _, hfa⟩
    cases hc : cache en.id with
    | none => rw [hc] at hfa; exact Option.noConfusion hfa
    | some e =>
        rw [hc] at hfa
        have heq : Action.set (MKey.id e.eid) (maybeSynchElement st.live e)
            = a := by simpa using hfa
        rw [← heq]
        rfl
  have hemits : emitsOf (ElementSet.loadElementsTrace cache st).1 =
      [⟨"loadelements", none, GVal.undef, GVal.undef⟩] := by
    rw [htr]
    show emitsOf (_ ++ _) = _
    unfold emitsOf
    rw [List.filterMap_append]
    have hnil := emitsOf_eq_nil hmut
    unfold emitsOf at hnil
    rw [hnil]
    rfl
  refine ⟨by rw [htr], hmut, hemits, ?_, ?_, ?_⟩
  · show (ElementSet.loadElementsTrace cache st).2 = Outcome.resolved
    rw [htr]
  · intro en hen e hce
    have hmem : Action.set (MKey.id e.eid) (maybeSynchElement st.live e) ∈
        st.entries.filterMap (fun en => (cache en.id).map (fun e =>
          Action.set (MKey.id e.eid) (maybeSynchElement st.live e))) :=
      List.mem_filterMap.mpr ⟨en, hen, by rw [hce]; rfl⟩
    rw [htr]
    exact List.mem_append_left _ hmem
  · intro hnil hmap
    show (applyTrace st.elementsById
        (ElementSet.loadElementsTrace cache st).1).length = 0
    rw [htr, hnil, hmap]
    rfl

/-- C8 witness: the empty-sequence scenario resolves with exactly one
loadelements event and Local Index size 0. -/
theorem C8_loadElements_witness :
    (stEmpty.loadElements cacheNone).2.1 =
        [⟨"loadelements", none, GVal.undef, GVal.undef⟩] ∧
    (stEmpty.loadElements cacheNone).2.2 = Outcome.resolved ∧
    (stEmpty.loadElements cacheNone).1.size = 0 :=
  ⟨(C8_loadElements cacheNone stEmpty (by decide)).2.2.1,
   (C8_loadElements cacheNone stEmpty (by decide)).2.2.2.1,
   (C8_loadElements cacheNone stEmpty (by decide)).2.2.2.2.2 rfl rfl⟩

theorem emitsOf_map_emit (l : List Event) : emitsOf (l.map Action.emit) = l := by
  induction l with
  | nil => rfl
  | cons e l ih => simpa [emitsOf, List.filterMap_cons] using ih

theorem isEmit_false_of_mem_indexMutations {m : JsMap}
    {changes old : List Entry} {filledAdded : List Filled} (a : Action)
    (ha : a ∈ indexMutationsOf m changes old filledAdded) :
    a.isEmit = false := by
  unfold indexMutationsOf at ha
  rcases List.mem_append.mp ha with hm | hm <;>
    rcases List.mem_map.mp hm with ⟨f, _, rfl⟩ <;> rfl

/-- C2: for a remote diff whose additions all hydrate, every event is
published only after every Local Index mutation of the diff has been applied
— the trace is the mutation prefix followed by the emissions — and the
published events are, in this fixed order, the add/remoteadd pair per
addition in resolution order, then the remove/remoteremove pairs, then the
regroup/remoteregroup pairs; in particular the diff adding A and removing B
publishes add A, remoteadd A, remove B, remoteremove B, never interleaved
or reversed. -/
theorem C2_event_order (cache : Nat → Option Elem) (live : Bool) (m : JsMap)
    (changes old : List Entry) (filledAdded : List Filled)
    (h : fillAdded cache live (differenceById changes old) =
      some filledAdded) :
    ((ElementSet.remoteupdateTrace cache live m changes old).1.filter
          (fun a => !a.isEmit))
        ++ ((ElementSet.remoteupdateTrace cache live m changes old).1.filter
          Action.isEmit)
      = (ElementSet.remoteupdateTrace cache live m changes old).1 ∧
    (ElementSet.remoteupdateTrace cache live m changes old).1.filter
        (fun a => !a.isEmit) = indexMutationsOf m changes old filledAdded ∧
    emitsOf (ElementSet.remoteupdateTrace cache live m changes old).1 =
      filledAdded.flatMap addEventPair
        ++ (filledRemovedOf m changes old).flatMap removeEventPair
        ++ regroupPairsOf
            (applyTrace m (indexMutationsOf m changes old filledAdded))
            changes old ∧
    (ElementSet.remoteupdateTrace cache live m changes old).2 =
      Outcome.resolved ∧
    emitsOf (ElementSet.remoteupdateTrace cacheAB false mAB
        [entryA] [entryB]).1 =
      [⟨"add", some objA, GVal.undef, GVal.undef⟩,
       ⟨"remoteadd", some objA, GVal.undef, GVal.undef⟩,
       ⟨"remove", some objB, GVal.undef, GVal.undef⟩,
       ⟨"remoteremove", some objB, GVal.undef, GVal.undef⟩] := by
  have htr : ElementSet.remoteupdateTrace cache live m changes old =
      (indexMutationsOf m changes old filledAdded ++
        (filledAdded.flatMap addEventPair
          ++ (filledRemovedOf m changes old).flatMap removeEventPair
          ++ regroupPairsOf
              (applyTrace m (indexMutationsOf m changes old filledAdded))
              changes old).map Action.emit,
        Outcome.resolved) := by
    simp only [ElementSet.remoteupdateTrace, h]
    rfl
  have htr1 : (ElementSet.remoteupdateTrace cache live m changes old).1 =
      indexMutationsOf m changes old filledAdded ++
        (filledAdded.flatMap addEventPair
          ++ (filledRemovedOf m changes old).flatMap removeEventPair
          ++ regroupPairsOf
              (applyTrace m (indexMutationsOf m changes old filledAdded))
              changes old).map Action.emit := by
    rw [htr]
  have hmutsA : (indexMutationsOf m changes old filledAdded).filter
      (fun a => !a.isEmit) = indexMutationsOf m changes old filledAdded :=
    List.filter_eq_self.mpr (fun a ha => by
      simp [isEmit_false_of_mem_indexMutations a ha])
  have hmutsB : (indexMutationsOf m changes old filledAdded).filter
      Action.isEmit = [] :=
    List.filter_eq_nil_iff.mpr (fun a ha => by
      rw [isEmit_false_of_mem_indexMutations a ha]; exact Bool.false_ne_true)
  have hemitA : ∀ l : List Event, (l.map Action.emit).filter
      (fun a => !a.isEmit) = [] := fun l =>
    List.filter_eq_nil_iff.mpr (fun a ha => by
      rcases List.mem_map.mp ha with ⟨e, _, rfl⟩; simp [Action.isEmit])
  have hemitB : ∀ l : List Event, (l.map Action.emit).filter
      Action.isEmit = l.map Action.emit := fun l =>
    List.filter_eq_self.mpr (fun a ha => by
      rcases List.mem_map.mp ha with ⟨e, _, rfl⟩; rfl)
  have hemitsOfMuts : emitsOf (indexMutationsOf m changes old filledAdded)
      = [] := emitsOf_eq_nil (fun a ha =>
        isEmit_false_of_mem_indexMutations a ha)
  refine ⟨?_, ?_, ?_, ?_, ?_⟩
  · rw [htr1, List.filter_append, List.filter_append, hmutsA, hmutsB,
      hemitA, hemitB]
    simp
  · rw [htr1, List.filter_append, hmutsA, hemitA]
    simp
  · rw [htr1]
    unfold emitsOf
    rw [List.filterMap_append]
    unfold emitsOf at hemitsOfMuts
    rw [hemitsOfMuts]
    have := emitsOf_map_emit (filledAdded.flatMap addEventPair
      ++ (filledRemovedOf m changes old).flatMap removeEventPair
      ++ regroupPairsOf
          (applyTrace m (indexMutationsOf m changes old filledAdded))
          changes old)
    unfold emitsOf at this
    rw [this]
    rfl
  · show (ElementSet.remoteupdateTrace cache live m changes old).2 =
      Outcome.resolved
    rw [htr]
  · decide

/-- C2 witness: the concrete add-A/remove-B diff resolves with the claimed
publish order. -/
theorem C2_event_order_witness :
    (ElementSet.remoteupdateTrace cacheAB false mAB [entryA] [entryB]).2 =
        Outcome.resolved ∧
    emitsOf (ElementSet.remoteupdateTrace cacheAB false mAB
        [entryA] [entryB]).1 =
      [⟨"add", some objA, GVal.undef, GVal.undef⟩,
       ⟨"remoteadd", some objA, GVal.undef, GVal.undef⟩,
       ⟨"remove", some objB, GVal.undef, GVal.undef⟩,
       ⟨"remoteremove", some objB, GVal.undef, GVal.undef⟩] :=
  ⟨(C2_event_order cacheAB false mAB [entryA] [entryB]
      [⟨objA, entryA⟩] (by decide)).2.2.2.1,
   (C2_event_order cacheAB false mAB [entryA] [entryB]
      [⟨objA, entryA⟩] (by decide)).2.2.2.2⟩

end ElementSetModel
